import Mathlib

/-!
Shallow embedding of the `rust_raylib_render` repository: the keyframe
track / easing engine (`src/scene/animation.rs`), pose and color types
(`src/scene/transform.rs`), clip intervals (`src/timeline/clip.rs`) and
the frame pipeline (`src/backend/raylib_render.rs`).

Rust `f32` values are modelled as exact rationals (`ℚ`): every operation
the claims touch is order comparison, field arithmetic and rounding, so
the rational model mirrors the real-number reading of the spec.  Rust
indexing that can panic is modelled with `Option` (a `none` models a
panic); Rust `Result` is modelled with `Except String`.
-/

/-- Model of Rust `f32` (exact arithmetic). -/
abbrev F := ℚ

namespace RustRender

/-! ## `src/scene/animation.rs` -/

/-- Rust `enum Easing` from `src/scene/animation.rs`. -/
inductive Easing where
  | Linear
  | EaseInOutQuad
  | EaseOutCubic
  deriving DecidableEq, Repr

/-- Rust `Easing::apply`: the input is first clamped to `[0,1]`
(`t.clamp(0.0, 1.0)`), then the selected curve is evaluated. -/
def Easing.apply (e : Easing) (t : F) : F :=
  let t := min (max t 0) 1
  match e with
  | .Linear => t
  | .EaseInOutQuad =>
      if t < 1/2 then 2 * t * t
      else 1 - (-2 * t + 2)^2 / 2
  | .EaseOutCubic => 1 - (1 - t)^3

/-- Rust `struct Keyframe<T>` from `src/scene/animation.rs`. -/
structure Keyframe (T : Type) where
  time : F
  value : T
  easing_to_next : Easing
  deriving DecidableEq, Repr

/-- Rust `Keyframe::new`. -/
def Keyframe.new (time : F) (value : T) (easing_to_next : Easing) : Keyframe T :=
  ⟨time, value, easing_to_next⟩

/-- The `Lerp` trait of `src/scene/animation.rs`. -/
class Lerp (T : Type) where
  lerp : T → T → F → T

/-- Rust `impl Lerp for f32`: `a + (b - a) * t`. -/
instance : Lerp F := ⟨fun a b t => a + (b - a) * t⟩

/-- Rust `struct Vec2` from `src/scene/transform.rs`. -/
structure Vec2 where
  x : F
  y : F
  deriving DecidableEq, Repr

/-- Rust `impl Lerp for Vec2`: componentwise lerp. -/
instance : Lerp Vec2 :=
  ⟨fun a b t => ⟨a.x + (b.x - a.x) * t, a.y + (b.y - a.y) * t⟩⟩

/-- Rust `struct Track<T>` from `src/scene/animation.rs`.  The `keyframes`
field is private in Rust, populated only by `Track::new` /
`Track::from_constant`. -/
structure Track (T : Type) where
  keyframes : List (Keyframe T)
  deriving DecidableEq, Repr

/-- The validation loop of `Track::new`:
`for i in 1..len { if kf[i].time <= kf[i-1].time { bail } }`, i.e. every
adjacent pair of keyframe times is strictly increasing. -/
def timesStrictlyIncreasing {T : Type} : List (Keyframe T) → Bool
  | [] => true
  | [_] => true
  | a :: b :: rest =>
      decide (a.time < b.time) && timesStrictlyIncreasing (b :: rest)

/-- Rust `Track::new`: rejects an empty list, then rejects any adjacent pair
with `kf[i].time <= kf[i-1].time`. -/
def Track.new {T : Type} (keyframes : List (Keyframe T)) :
    Except String (Track T) :=
  if keyframes.isEmpty then
    .error "track must have at least one keyframe"
  else if timesStrictlyIncreasing keyframes then
    .ok ⟨keyframes⟩
  else
    .error "keyframe times must be strictly increasing"

/-- Rust `Track::from_constant`: one keyframe at time `0` with `Linear` easing. -/
def Track.from_constant {T : Type} (value : T) : Track T :=
  ⟨[Keyframe.new 0 value .Linear]⟩

/-- The invariant `Track::new` establishes (and `from_constant`
trivially satisfies): non-empty, strictly increasing keyframe times. -/
def Track.Valid {T : Type} (tr : Track T) : Prop :=
  tr.keyframes ≠ [] ∧ timesStrictlyIncreasing tr.keyframes = true

instance {T : Type} [DecidableEq T] (tr : Track T) : Decidable tr.Valid :=
  inferInstanceAs (Decidable (_ ∧ _))

/-- The interval-scan loop of `Track::sample`:
`for i in 0..len-1 { if t >= kf[i].time && t < kf[i+1].time { idx = i; break } }`
with `idx` defaulting to `0` when no interval matches.  Inside the loop
`i < len - 1`, so both accesses are in bounds; the `false` fallback arm
is unreachable. -/
def sampleIdx {T : Type} (kfs : List (Keyframe T)) (t : F) : Nat :=
  match (List.range (kfs.length - 1)).find? (fun i =>
      match kfs[i]?, kfs[i+1]? with
      | some k0, some k1 => decide (k0.time ≤ t) && decide (t < k1.time)
      | _, _ => false) with
  | some i => i
  | none => 0

/-- Rust `Track::sample`.  The unconditional indexing `keyframes[0]`,
`keyframes[len-1]`, `keyframes[idx]`, `keyframes[idx+1]` of the Rust
code is modelled with `Option`: a `none` result models an index panic. -/
def Track.sample {T : Type} [Lerp T] (tr : Track T) (t : F) : Option T :=
  match tr.keyframes[0]?, tr.keyframes[tr.keyframes.length - 1]? with
  | some first, some last =>
      if t ≤ first.time then some first.value
      else if last.time ≤ t then some last.value
      else
        let idx := sampleIdx tr.keyframes t
        match tr.keyframes[idx]?, tr.keyframes[idx+1]? with
        | some k0, some k1 =>
            let span := k1.time - k0.time
            let u := if 0 < span then (t - k0.time) / span else 0
            let eased := k0.easing_to_next.apply u
            some (Lerp.lerp k0.value k1.value eased)
        | _, _ => none
  | _, _ => none

/-! ## `src/scene/transform.rs` -/

/-- Rust `struct Color` from `src/scene/transform.rs`: four `u8` channels,
modelled as naturals below `256`. -/
structure Color where
  r : ℕ
  g : ℕ
  b : ℕ
  a : ℕ
  deriving DecidableEq, Repr

/-- Rust `Color::WHITE`. -/
def Color.WHITE : Color := ⟨255, 255, 255, 255⟩

/-- Rust `struct Transform` from `src/scene/transform.rs`. -/
structure Transform where
  pos : Vec2
  scale : Vec2
  rotation : F
  opacity : F
  deriving DecidableEq, Repr

/-- Rust `struct AnimatedTransform`: four independent tracks. -/
structure AnimatedTransform where
  position : Track Vec2
  scale : Track Vec2
  rotation : Track F
  opacity : Track F
  deriving DecidableEq, Repr

/-- Rust `AnimatedTransform::constant`. -/
def AnimatedTransform.constant (transform : Transform) : AnimatedTransform where
  position := Track.from_constant transform.pos
  scale := Track.from_constant transform.scale
  rotation := Track.from_constant transform.rotation
  opacity := Track.from_constant transform.opacity

/-- Rust `AnimatedTransform::sample`: samples the four tracks independently.
`none` models a panic in any component sample. -/
def AnimatedTransform.sample (a : AnimatedTransform) (t : F) : Option Transform := do
  let pos ← a.position.sample t
  let scale ← a.scale.sample t
  let rotation ← a.rotation.sample t
  let opacity ← a.opacity.sample t
  pure ⟨pos, scale, rotation, opacity⟩

/-! ## The `scene` module items absent from `src/`

`Shape` and `Object` are declared in the scene module of the repository,
whose file is not under `src/`; only their uses (`raylib_render.rs`
pattern matches) and the spec describe them. -/

/-- Modelled from the spec: `Shape` — `Circle { radius, color }` or
`Rect { width, height, color }` (the `scene` module file defining it is
not under `src/`; the variants and fields match their uses in
`draw_shape`). -/
inductive Shape where
  | Circle (radius : F) (color : Color)
  | Rect (width : F) (height : F) (color : Color)
  deriving DecidableEq, Repr

/-- Modelled from the spec: `Object` — a tagged union of Shape, Image
(path reference) and Text (text block data); the `scene` module file
defining it is not under `src/`.  Image and Text carry only the data the
present claims need. -/
inductive Object where
  | Shape (shape : Shape)
  | Image (path : String)
  | Text (text : String)
  deriving DecidableEq, Repr

/-! ## `src/timeline/clip.rs` -/

/-- Rust `struct Clip` from `src/timeline/clip.rs`. -/
structure Clip where
  start : F
  endTime : F
  object : Object
  transform : AnimatedTransform
  deriving DecidableEq, Repr

/-- Rust `Clip::new`: validates `duration > 0` and
`0 <= start < end <= duration`. -/
def Clip.new (start endTime : F) (object : Object)
    (transform : AnimatedTransform) (duration : F) : Except String Clip :=
  if duration ≤ 0 then
    .error "duration must be > 0"
  else if start < 0 ∨ endTime ≤ start ∨ duration < endTime then
    .error "clip bounds must satisfy 0 <= start < end <= duration"
  else
    .ok ⟨start, endTime, object, transform⟩

/-- Rust `Clip::is_active`: `t >= self.start && t < self.end`. -/
def Clip.is_active (c : Clip) (t : F) : Bool :=
  decide (c.start ≤ t) && decide (t < c.endTime)

/-- Rust `Clip::local_time`. -/
def Clip.local_time (c : Clip) (t : F) : Option F :=
  if c.is_active t then some (t - c.start) else none

/-- Rust `Clip::clamped_local_time`. -/
def Clip.clamped_local_time (c : Clip) (t : F) : F :=
  if t ≤ c.start then 0
  else if c.endTime ≤ t then c.endTime - c.start
  else t - c.start

/-! ## The `timeline` module items absent from `src/`

`Layer`, `Timeline`, `SampledScene` and `Timeline::sample` are declared
in the timeline module of the repository, whose defining file (other than
`clip.rs`) is not under `src/`; they are modelled from the spec. -/

/-- Modelled from the spec: `Layer` — an ordered sequence of Clips
(the `timeline` module file defining it is not under `src/`). -/
structure Layer where
  clips : List Clip
  deriving DecidableEq, Repr

/-- Modelled from the spec: `Timeline` — `fps: u32`, `duration: f32`
and an ordered sequence of layers (the `timeline` module file defining
it is not under `src/`). -/
structure Timeline where
  fps : ℕ
  duration : F
  layers : List Layer
  deriving DecidableEq, Repr

/-- A sampled clip of a `SampledScene`: the resolved drawable and its
pose at the sampled instant. -/
structure SampledClip where
  object : Object
  transform : Transform
  deriving DecidableEq, Repr

/-- A sampled layer of a `SampledScene`. -/
structure SampledLayer where
  clips : List SampledClip
  deriving DecidableEq, Repr

/-- Modelled from the spec: `SampledScene` — per layer, the list of
currently-active clips each paired with its resolved object and its
sampled transform. -/
structure SampledScene where
  layers : List SampledLayer
  deriving DecidableEq, Repr

/-- Rust `Transform::default`: identity pose. -/
def Transform.default : Transform := ⟨⟨0, 0⟩, ⟨1, 1⟩, 0, 1⟩

/-- Total wrapper around `AnimatedTransform.sample`; the `default`
fallback is unreachable for transforms whose tracks satisfy the
constructor invariant (every `Track` is non-empty). -/
def AnimatedTransform.sampleD (a : AnimatedTransform) (t : F) : Transform :=
  (a.sample t).getD Transform.default

/-- Modelled from the spec: `Timeline::sample` — fails if `t` is
outside `[0, duration)`; otherwise, for every layer in order, filters to
the clips active at `t` and samples the transform of each clip at the local
time `t - clip.start`. -/
def Timeline.sample (tl : Timeline) (t : F) : Except String SampledScene :=
  if t < 0 ∨ tl.duration ≤ t then
    .error "sample time out of range"
  else
    .ok ⟨tl.layers.map fun layer =>
      ⟨(layer.clips.filter fun c => c.is_active t).map fun c =>
        ⟨c.object, c.transform.sampleD (t - c.start)⟩⟩⟩

/-! ## `src/backend/raylib_render.rs`: color conversion and shape drawing -/

/-- Rust `graph_to_screen`: object-space origin maps to the frame centre,
with the vertical axis flipped. -/
def graph_to_screen (pos : Vec2) (width height : ℕ) : Vec2 :=
  ⟨(width : F) / 2 + pos.x, (height : F) / 2 - pos.y⟩

/-- Rust `to_raylib_color`: the intrinsic alpha is multiplied by the opacity
clamped to `[0,1]`, rounded (`f32::round`, half away from zero — equal
to `round` on the non-negative values arising here), clamped to
`[0,255]` and truncated to `u8`. -/
def to_raylib_color (color : Color) (opacity : F) : Color :=
  let alpha := (min (max (round ((color.a : F) * (min (max opacity 0) 1))) 0) 255).toNat
  ⟨color.r, color.g, color.b, alpha⟩

/-- The draw call `draw_shape` issues to the raylib backend:
`draw_circle_v(center, radius, color)` or
`draw_rectangle_pro(rec, origin, rotation, color)` with
`rec = (position, size)`. -/
inductive DrawCmd where
  | circle (center : Vec2) (radius : F) (color : Color)
  | rectPro (position : Vec2) (size : Vec2) (origin : Vec2)
      (rotation : F) (color : Color)
  deriving DecidableEq, Repr

/-- Rust `draw_shape`: the radius of a circle is scaled by
`transform.scale.x.max(0.0)`; the width and height of a rectangle are scaled
by `scale.x` and `scale.y` unclamped. -/
def draw_shape (width height : ℕ) (shape : Shape) (transform : Transform) :
    DrawCmd :=
  let center := graph_to_screen transform.pos width height
  let color := to_raylib_color
    (match shape with
     | .Circle _ color => color
     | .Rect _ _ color => color)
    transform.opacity
  match shape with
  | .Circle radius _ =>
      let scaled := radius * max transform.scale.x 0
      .circle center scaled color
  | .Rect w h _ =>
      let w := w * transform.scale.x
      let h := h * transform.scale.y
      .rectPro center ⟨w, h⟩ ⟨w / 2, h / 2⟩ transform.rotation color

/-- The radius argument of an issued circle draw call. -/
def DrawCmd.circleRadius : DrawCmd → Option F
  | .circle _ radius _ => some radius
  | _ => none

/-- The size argument of an issued rectangle draw call. -/
def DrawCmd.rectSize : DrawCmd → Option Vec2
  | .rectPro _ size _ _ _ => some size
  | _ => none

/-! ## `src/backend/raylib_render.rs`: the frame pipeline

`render_scene_to_rgba` talks to the raylib FFI; it is abstracted as a
fallible `render` function parameter producing a pixel buffer.  Wall
time (`Instant::now`) is abstracted as a `clock : ℕ → F` oracle read in
program order; each `Instant::now()` / `.elapsed()` call consumes the
next reading. -/

/-- A captured RGBA8 pixel buffer. -/
abbrev Rgba := List ℕ

/-- Rust `struct RenderProgress` from `src/backend/raylib_render.rs`. -/
structure RenderProgress where
  enabled : Bool
  log_every_frames : ℕ
  show_time : Bool
  show_eta : Bool
  deriving DecidableEq, Repr

/-- Rust `RenderProgress::default`: disabled, cadence 100, time and ETA on. -/
def RenderProgress.default : RenderProgress :=
  ⟨false, 100, true, true⟩

/-- The numeric content of one emitted progress status line
(`frames: idx/frames (percent%)`, optionally ` time hms/hms` and
` eta hms` or ` elapsed hms`); the `HH:MM:SS` string rendering is
presentation only and not modelled. -/
structure ProgressLine where
  frameIdx : ℕ
  totalFrames : ℕ
  percent : F
  timePart : Option (F × F)
  etaPart : Option (F ⊕ F)
  deriving DecidableEq, Repr

/-- The mutable progress bookkeeping of
`render_timeline_rgba_with_progress`: `last_progress_frame`,
`last_100_frame`, `last_100_time`, `per_frame_secs`, plus the clock
oracle cursor. -/
structure ProgState where
  lastProgressFrame : ℕ
  last100Frame : ℕ
  last100Time : F
  perFrameSecs : Option F
  clockIdx : ℕ
  deriving DecidableEq, Repr

/-- The `if progress.enabled` block at the end of each loop iteration:
updates the rolling 100-frame rate window, and at the configured cadence
emits a status line (with time and ETA/elapsed parts as configured). -/
def progressStep (prog : RenderProgress) (clock : ℕ → F) (overallStart : F)
    (fps frames frameIdx : ℕ) (st : ProgState) :
    Option ProgressLine × ProgState :=
  if prog.enabled then
    let st :=
      if 100 ≤ frameIdx - st.last100Frame then
        let elapsed := clock st.clockIdx - st.last100Time
        let window := frameIdx - st.last100Frame
        { st with
            perFrameSecs := some (elapsed / (window : F))
            last100Frame := frameIdx
            last100Time := clock (st.clockIdx + 1)
            clockIdx := st.clockIdx + 2 }
      else st
    if prog.log_every_frames ≤ frameIdx - st.lastProgressFrame then
      let st := { st with lastProgressFrame := frameIdx }
      let percent := (frameIdx : F) / (max frames 1 : ℕ) * 100
      if prog.show_time then
        let elapsedSecs := clock st.clockIdx - overallStart
        let st := { st with clockIdx := st.clockIdx + 1 }
        let renderedSecs := (frameIdx : F) / (fps : F)
        let totalSecs := (frames : F) / (fps : F)
        let etaPart : Option (F ⊕ F) :=
          if prog.show_eta then
            match st.perFrameSecs with
            | some pf => some (.inl ((frames - frameIdx : ℕ) * pf))
            | none => some (.inr elapsedSecs)
          else none
        (some ⟨frameIdx, frames, percent, some (renderedSecs, totalSecs), etaPart⟩, st)
      else
        (some ⟨frameIdx, frames, percent, none, none⟩, st)
    else
      (none, st)
  else
    (none, st)

/-- The frame loop of `render_timeline_rgba_with_progress`:
`for i in 0..frames` samples the timeline at `t = start + i/fps`,
renders the sampled scene, hands `(t, rgba)` to the sink (recorded in
the first output list) and then runs the progress bookkeeping.  `fuel`
counts the remaining iterations (`frames - i`). -/
def renderLoop (render : SampledScene → Except String Rgba) (tl : Timeline)
    (start : F) (frames : ℕ) (prog : RenderProgress) (clock : ℕ → F)
    (overallStart : F) :
    ℕ → ℕ → ProgState → Except String (List (F × Rgba) × List ProgressLine)
  | _, 0, _ => .ok ([], [])
  | i, fuel + 1, st =>
      let t := start + (i : F) / (tl.fps : F)
      match tl.sample t with
      | .error e => .error e
      | .ok scene =>
          match render scene with
          | .error e => .error e
          | .ok rgba =>
              let next := progressStep prog clock overallStart tl.fps frames (i + 1) st
              match renderLoop render tl start frames prog clock overallStart
                  (i + 1) fuel next.2 with
              | .error e => .error e
              | .ok (rest, lines) =>
                  .ok ((t, rgba) :: rest, next.1.toList ++ lines)

/-- Rust `RaylibRender::render_timeline_rgba_with_progress`: validates the
window, computes `frames = floor((end - start) * fps)` and runs the
frame loop.  The two initial `Instant::now()` reads seed
`last_100_time` and `overall_start`. -/
def render_timeline_rgba_with_progress
    (render : SampledScene → Except String Rgba) (tl : Timeline)
    (start_time end_time : F) (progress : Option RenderProgress)
    (clock : ℕ → F) :
    Except String (List (F × Rgba) × List ProgressLine) :=
  if start_time < 0 ∨ end_time ≤ start_time ∨ tl.duration < end_time then
    .error "start/end time must satisfy 0 <= start < end <= duration"
  else
    let frames := ⌊(end_time - start_time) * (tl.fps : F)⌋.toNat
    let prog := progress.getD RenderProgress.default
    renderLoop render tl start_time frames prog clock (clock 1) 0 frames
      ⟨0, 0, clock 0, none, 2⟩

/-- Rust `RaylibRender::render_timeline_rgba`: delegates with `progress = None`. -/
def render_timeline_rgba (render : SampledScene → Except String Rgba)
    (tl : Timeline) (start_time end_time : F) (clock : ℕ → F) :
    Except String (List (F × Rgba) × List ProgressLine) :=
  render_timeline_rgba_with_progress render tl start_time end_time none clock

/-! ## Concrete scenes used in the checked examples -/

/-- A red circle, used as drawable payload where the claims do not
inspect the object. -/
def demoObject : Object := .Shape (.Circle 1 ⟨255, 0, 0, 255⟩)

/-- A constant identity transform. -/
def demoAT : AnimatedTransform := AnimatedTransform.constant Transform.default

/-- The half-open-interval example clip of the spec: `start=1, end=2`. -/
def demoClip : Clip := ⟨1, 2, demoObject, demoAT⟩

/-- A two-keyframe `Linear` track `[(0,10),(1,20)]`. -/
def demoTrack2 : Track F :=
  ⟨[Keyframe.new 0 10 .Linear, Keyframe.new 1 20 .Linear]⟩

/-- The opacity track of the spec, `[(0,1.0),(1,0.0),Linear]`. -/
def demoOpacityTrack : Track F :=
  ⟨[Keyframe.new 0 1 .Linear, Keyframe.new 1 0 .Linear]⟩

/-- A timeline of duration `2` at `30` fps. -/
def demoTimeline : Timeline := ⟨30, 2, []⟩

/-! ## Helper lemmas -/

/-- The `Track::new` validation loop accepts exactly the lists whose
adjacent keyframe times form a strictly increasing chain. -/
theorem timesStrictlyIncreasing_iff_chain {T : Type} :
    ∀ kfs : List (Keyframe T),
      timesStrictlyIncreasing kfs = true ↔
        List.Chain' (fun a b : Keyframe T => a.time < b.time) kfs
  | [] => by simp [timesStrictlyIncreasing]
  | [_] => by simp [timesStrictlyIncreasing]
  | a :: b :: rest => by
      rw [timesStrictlyIncreasing, Bool.and_eq_true, decide_eq_true_eq,
        List.chain'_cons, timesStrictlyIncreasing_iff_chain (b :: rest)]

/-- In a valid track the keyframe times are strictly monotone in the
index. -/
theorem track_valid_time_lt {T : Type} {tr : Track T} (h : tr.Valid)
    {i j : ℕ} (hi : i < tr.keyframes.length) (hj : j < tr.keyframes.length)
    (hij : i < j) :
    (tr.keyframes[i]).time < (tr.keyframes[j]).time := by
  have hp : List.Pairwise (fun a b : Keyframe T => a.time < b.time)
      tr.keyframes := by
    haveI : IsTrans (Keyframe T) (fun a b : Keyframe T => a.time < b.time) :=
      ⟨fun _ _ _ hab hbc => lt_trans hab hbc⟩
    exact List.chain'_iff_pairwise.mp
      ((timesStrictlyIncreasing_iff_chain tr.keyframes).mp h.2)
  exact List.pairwise_iff_getElem.mp hp i j hi hj hij

/-- In a valid track with at least two keyframes the interval-scan index
stays strictly below `len - 1`. -/
theorem sampleIdx_succ_lt {T : Type} (kfs : List (Keyframe T)) (t : F)
    (h2 : 2 ≤ kfs.length) : sampleIdx kfs t + 1 < kfs.length := by
  unfold sampleIdx
  cases hf : (List.range (kfs.length - 1)).find? (fun i =>
      match kfs[i]?, kfs[i+1]? with
      | some k0, some k1 => decide (k0.time ≤ t) && decide (t < k1.time)
      | _, _ => false) with
  | none =>
      show 0 + 1 < kfs.length
      omega
  | some i =>
      have hm : i ∈ List.range (kfs.length - 1) := List.mem_of_find?_eq_some hf
      have := List.mem_range.mp hm
      show i + 1 < kfs.length
      omega

/-- In a valid track the interval scan returns exactly the index of the
keyframe interval bracketing `t`. -/
theorem sampleIdx_eq_of_between {T : Type} {tr : Track T} (h : tr.Valid)
    {t : F} {i : ℕ} {k0 k1 : Keyframe T}
    (h0 : tr.keyframes[i]? = some k0) (h1 : tr.keyframes[i + 1]? = some k1)
    (ht0 : k0.time ≤ t) (ht1 : t < k1.time) :
    sampleIdx tr.keyframes t = i := by
  obtain ⟨hi1, hk1⟩ := List.getElem?_eq_some.mp h1
  obtain ⟨hi0, hk0⟩ := List.getElem?_eq_some.mp h0
  have hilt : i < tr.keyframes.length - 1 := by omega
  unfold sampleIdx
  have hfind : (List.range (tr.keyframes.length - 1)).find? (fun j =>
      match tr.keyframes[j]?, tr.keyframes[j + 1]? with
      | some a, some b => decide (a.time ≤ t) && decide (t < b.time)
      | _, _ => false) = some i := by
    have hsplit : tr.keyframes.length - 1 =
        i + (tr.keyframes.length - 1 - i) := by omega
    rw [hsplit, List.range_add, List.find?_append]
    have hnone : (List.range i).find? (fun j =>
        match tr.keyframes[j]?, tr.keyframes[j + 1]? with
        | some a, some b => decide (a.time ≤ t) && decide (t < b.time)
        | _, _ => false) = none := by
      rw [List.find?_eq_none]
      intro j hj
      have hjlt : j < i := List.mem_range.mp hj
      have hj1 : j + 1 < tr.keyframes.length := by omega
      have hjn : j < tr.keyframes.length := by omega
      simp only [List.getElem?_eq_getElem hjn, List.getElem?_eq_getElem hj1,
        Bool.and_eq_true, decide_eq_true_eq, not_and, not_lt]
      intro _
      have hle : (tr.keyframes[j + 1]).time ≤ k0.time := by
        rcases eq_or_lt_of_le (by omega : j + 1 ≤ i) with heq | hlt2
        · rw [← hk0]
          simp only [heq]
          exact le_rfl
        · rw [← hk0]
          exact le_of_lt (track_valid_time_lt h hj1 hi0 hlt2)
      linarith
    have hpos : (((List.range (tr.keyframes.length - 1 - i)).map
        (i + ·)).find? (fun j =>
        match tr.keyframes[j]?, tr.keyframes[j + 1]? with
        | some a, some b => decide (a.time ≤ t) && decide (t < b.time)
        | _, _ => false)) = some i := by
      rw [show tr.keyframes.length - 1 - i =
          (tr.keyframes.length - 2 - i) + 1 by omega,
        List.range_succ_eq_map, List.map_cons, List.find?_cons_of_pos]
      · simp
      · simp only [Nat.add_zero, h0, h1, Bool.and_eq_true, decide_eq_true_eq]
        exact ⟨ht0, ht1⟩
    rw [hnone, hpos]
    rfl
  rw [hfind]

/-- Rust `Track::from_constant` satisfies the track invariant. -/
theorem from_constant_valid {T : Type} (value : T) :
    (Track.from_constant value).Valid :=
  ⟨by simp [Track.from_constant], rfl⟩

/-- C7: `Track::new(keyframes)` returns an error (never a panic) exactly
when the list is empty or the time of some keyframe is not strictly
greater than that of its predecessor, and every successfully constructed track has
strictly increasing keyframe times. -/
theorem track_new_spec {T : Type} (kfs : List (Keyframe T)) :
    ((∃ tr : Track T, Track.new kfs = .ok tr) ↔
      kfs ≠ [] ∧ ∀ i (h2 : i + 1 < kfs.length),
        (kfs[i]).time < (kfs[i + 1]).time) ∧
    (∀ tr : Track T, Track.new kfs = .ok tr → tr.Valid) := by
  have hchain : timesStrictlyIncreasing kfs = true ↔
      ∀ i (h2 : i + 1 < kfs.length),
        (kfs[i]).time < (kfs[i + 1]).time := by
    rw [timesStrictlyIncreasing_iff_chain, List.chain'_iff_get]
    constructor
    · intro hc i h2
      simpa using hc i (by omega)
    · intro hg i hlt
      simpa using hg i (by omega)
  unfold Track.new
  split
  · rename_i hemp
    refine ⟨⟨?_, ?_⟩, ?_⟩
    · rintro ⟨tr, htr⟩
      cases htr
    · rintro ⟨hne, _⟩
      exact absurd (List.isEmpty_iff.mp hemp) hne
    · intro tr htr
      cases htr
  · rename_i hemp
    split
    · rename_i hinc
      refine ⟨⟨?_, ?_⟩, ?_⟩
      · rintro ⟨tr, _⟩
        exact ⟨fun hnil => hemp (by simp [show kfs = [] from hnil]),
          hchain.mp hinc⟩
      · intro _
        exact ⟨_, rfl⟩
      · intro tr htr
        cases htr
        exact ⟨fun hnil => hemp (by simp [show kfs = [] from hnil]), hinc⟩
    · rename_i hninc
      refine ⟨⟨?_, ?_⟩, ?_⟩
      · rintro ⟨tr, htr⟩
        cases htr
      · rintro ⟨hne, hg⟩
        exact absurd (hchain.mpr hg) hninc
      · intro tr htr
        cases htr

/-- C7 witness: the keyframe list with times `[0.0, 0.0]` is rejected. -/
theorem track_new_spec_witness :
    ¬∃ tr : Track F, Track.new
      [Keyframe.new 0 0 .Linear, Keyframe.new 0 1 .Linear] = .ok tr := by
  intro hex
  have h := (track_new_spec
    [Keyframe.new (0 : F) 0 .Linear, Keyframe.new 0 1 .Linear]).1.mp hex
  have h2 := h.2 0 (by decide)
  norm_num [Keyframe.new] at h2

/-- C8: `Clip::is_active(t)` holds exactly on the half-open interval
`start ≤ t < end`; in particular for `start=1, end=2` the instant `1`
is active and the instant `2` is not. -/
theorem clip_is_active_spec :
    (∀ (c : Clip) (t : F), c.is_active t = true ↔ c.start ≤ t ∧ t < c.endTime) ∧
    demoClip.is_active 1 = true ∧ demoClip.is_active 2 = false := by
  refine ⟨fun c t => ?_, ?_, ?_⟩
  · simp [Clip.is_active]
  · decide
  · decide

/-- C6: for positive durations, `Clip::new` fails exactly when
`start < 0`, `end ≤ start` or `end > duration`, and any successfully
constructed clip satisfies `0 ≤ start < end ≤ duration`. -/
theorem clip_new_spec (start endTime : F) (object : Object)
    (transform : AnimatedTransform) (duration : F) (hd : 0 < duration) :
    ((Clip.new start endTime object transform duration).isOk = true ↔
      ¬(start < 0 ∨ endTime ≤ start ∨ duration < endTime)) ∧
    (∀ c, Clip.new start endTime object transform duration = .ok c →
      0 ≤ c.start ∧ c.start < c.endTime ∧ c.endTime ≤ duration) := by
  unfold Clip.new
  rw [if_neg (not_le.mpr hd)]
  split
  · rename_i hbad
    refine ⟨?_, ?_⟩
    · simp [Except.isOk, Except.toBool, hbad]
    · intro c hc
      cases hc
  · rename_i hgood
    refine ⟨?_, ?_⟩
    · simp [Except.isOk, Except.toBool, hgood]
    · intro c hc
      cases hc
      push_neg at hgood
      exact ⟨hgood.1, hgood.2.1, hgood.2.2⟩

/-- C6 witness: `start=0, end=10, duration=10` succeeds and yields valid
bounds; `start=5, end=3` and `end=11` are rejected. -/
theorem clip_new_spec_witness :
    (((Clip.new 0 10 demoObject demoAT 10).isOk = true ↔
      ¬((0 : F) < 0 ∨ (10 : F) ≤ 0 ∨ (10 : F) < 10)) ∧
     (∀ c, Clip.new 0 10 demoObject demoAT 10 = .ok c →
       0 ≤ c.start ∧ c.start < c.endTime ∧ c.endTime ≤ 10)) ∧
    (Clip.new 5 3 demoObject demoAT 10).isOk = false ∧
    (Clip.new 0 11 demoObject demoAT 10).isOk = false :=
  ⟨clip_new_spec 0 10 demoObject demoAT 10 (by norm_num),
   by decide, by decide⟩

/-- The scalar `Lerp` instance evaluates to `a + (b - a) * t`. -/
theorem lerp_rat_def (a b t : F) : Lerp.lerp a b t = a + (b - a) * t := rfl

/-- C1: clamping law — for a validly constructed track, sampling at or
at or before the time of the first keyframe yields the value of the
first keyframe, and sampling at or after the time of the last keyframe
yields the value of the last keyframe. -/
theorem track_sample_clamp {T : Type} [Lerp T] (tr : Track T) (t : F)
    (h : tr.Valid) (kf kl : Keyframe T)
    (hf : tr.keyframes[0]? = some kf)
    (hl : tr.keyframes[tr.keyframes.length - 1]? = some kl) :
    (t ≤ kf.time → tr.sample t = some kf.value) ∧
    (kl.time ≤ t → tr.sample t = some kl.value) := by
  obtain ⟨h0lt, hk0⟩ := List.getElem?_eq_some.mp hf
  obtain ⟨hllt, hkl⟩ := List.getElem?_eq_some.mp hl
  constructor
  · intro ht
    simp only [Track.sample, hf, hl, if_pos ht]
  · intro ht
    by_cases ht2 : t ≤ kf.time
    · have hn1 : tr.keyframes.length = 1 := by
        by_contra hn
        have := track_valid_time_lt h h0lt hllt (by omega)
        rw [hk0, hkl] at this
        linarith
      have heq : kf = kl := by
        rw [← hk0, ← hkl]
        congr 1
        omega
      simp only [Track.sample, hf, hl, heq]
      rw [if_pos (show t ≤ kl.time from heq ▸ ht2)]
    · simp only [Track.sample, hf, hl, if_neg ht2, if_pos ht]

/-- C1 witness: the two-keyframe track `[(0,10),(1,20)]` clamps to `10`
at `t = -5` and to `20` at `t = 7`. -/
theorem track_sample_clamp_witness :
    demoTrack2.sample (-5) = some 10 ∧ demoTrack2.sample 7 = some 20 := by
  have h1 := track_sample_clamp demoTrack2 (-5) (by decide)
    (Keyframe.new 0 10 .Linear) (Keyframe.new 1 20 .Linear) rfl rfl
  have h2 := track_sample_clamp demoTrack2 7 (by decide)
    (Keyframe.new 0 10 .Linear) (Keyframe.new 1 20 .Linear) rfl rfl
  exact ⟨h1.1 (by norm_num [Keyframe.new]), h2.2 (by norm_num [Keyframe.new])⟩

/-- C3: `Track::sample` is total — for every validly constructed track
and every time, sampling returns a value (no index panic occurs). -/
theorem track_sample_total {T : Type} [Lerp T] (tr : Track T) (t : F)
    (h : tr.Valid) : ∃ v, tr.sample t = some v := by
  have hlen : 0 < tr.keyframes.length := List.length_pos.mpr h.1
  have hl1 : tr.keyframes.length - 1 < tr.keyframes.length := by omega
  simp only [Track.sample, List.getElem?_eq_getElem hlen,
    List.getElem?_eq_getElem hl1]
  split_ifs with h1 h2
  · exact ⟨_, rfl⟩
  · exact ⟨_, rfl⟩
  · have h2len : 2 ≤ tr.keyframes.length := by
      by_contra hc
      have hone : tr.keyframes.length = 1 := by omega
      push_neg at h1 h2
      simp only [hone] at h1 h2
      norm_num at h1 h2
      linarith
    have hidx1 := sampleIdx_succ_lt tr.keyframes t h2len
    have hidx0 : sampleIdx tr.keyframes t < tr.keyframes.length := by omega
    simp only [List.getElem?_eq_getElem hidx0, List.getElem?_eq_getElem hidx1]
    exact ⟨_, rfl⟩

/-- C3 witness: the constant track built by `from_constant` samples
without panic far outside its keyframe range. -/
theorem track_sample_total_witness :
    (Track.from_constant (5 : F)).Valid ∧
    ∃ v, (Track.from_constant (5 : F)).sample 42 = some v :=
  ⟨by decide, track_sample_total (Track.from_constant (5 : F)) 42 (by decide)⟩

/-- C2: between two consecutive keyframes `k0, k1`, sampling applies
the easing of `k0` to the normalized progress and interpolates between the
two keyframe values. -/
theorem track_sample_between {T : Type} [Lerp T] (tr : Track T) (t : F)
    (i : ℕ) (k0 k1 : Keyframe T) (h : tr.Valid)
    (h0 : tr.keyframes[i]? = some k0) (h1 : tr.keyframes[i + 1]? = some k1)
    (ht0 : k0.time < t) (ht1 : t < k1.time) :
    tr.sample t = some (Lerp.lerp k0.value k1.value
      (k0.easing_to_next.apply ((t - k0.time) / (k1.time - k0.time)))) := by
  obtain ⟨hi1, hk1⟩ := List.getElem?_eq_some.mp h1
  obtain ⟨hi0, hk0⟩ := List.getElem?_eq_some.mp h0
  have hlen : 0 < tr.keyframes.length := by omega
  have hl1 : tr.keyframes.length - 1 < tr.keyframes.length := by omega
  have hf0 : (tr.keyframes[0]).time ≤ k0.time := by
    rcases Nat.eq_zero_or_pos i with hz | hpos
    · subst hz
      rw [← hk0]
    · rw [← hk0]
      exact le_of_lt (track_valid_time_lt h hlen hi0 hpos)
  have hfl : k1.time ≤ (tr.keyframes[tr.keyframes.length - 1]).time := by
    rcases eq_or_lt_of_le (by omega : i + 1 ≤ tr.keyframes.length - 1) with
      heq | hlt
    · rw [← hk1]
      simp only [heq]
      exact le_rfl
    · rw [← hk1]
      exact le_of_lt (track_valid_time_lt h hi1 hl1 hlt)
  have hni : ¬ t ≤ (tr.keyframes[0]).time := by
    push_neg
    linarith
  have hnl : ¬ (tr.keyframes[tr.keyframes.length - 1]).time ≤ t := by
    push_neg
    linarith
  have hidx : sampleIdx tr.keyframes t = i :=
    sampleIdx_eq_of_between h h0 h1 (le_of_lt ht0) ht1
  have hspan : (0 : F) < k1.time - k0.time := by
    have := track_valid_time_lt h hi0 hi1 (by omega)
    rw [hk0, hk1] at this
    linarith
  simp only [Track.sample, List.getElem?_eq_getElem hlen,
    List.getElem?_eq_getElem hl1, if_neg hni, if_neg hnl, hidx, h0, h1,
    if_pos hspan]

/-- C2 witness: the two-keyframe `Linear` track `[(0,10),(1,20)]`
sampled at `t = 1/2` yields the midpoint `15`. -/
theorem track_sample_between_witness :
    demoTrack2.sample (1/2) = some 15 := by
  have h := track_sample_between demoTrack2 (1/2) 0
    (Keyframe.new 0 10 .Linear) (Keyframe.new 1 20 .Linear)
    (by decide) rfl rfl (by norm_num [Keyframe.new]) (by norm_num [Keyframe.new])
  rw [h]
  norm_num [Keyframe.new, lerp_rat_def, Easing.apply]

/-- C5: the alpha handed to the drawing backend is the intrinsic alpha
multiplied by the opacity clamped to `[0,1]` and rounded; for an 8-bit
intrinsic alpha the final `[0,255]` clamp never fires. -/
theorem to_raylib_color_alpha (color : Color) (opacity : F)
    (h : color.a ≤ 255) :
    (to_raylib_color color opacity).a =
      (round ((color.a : F) * min (max opacity 0) 1)).toNat := by
  show (min (max (round ((color.a : F) * min (max opacity 0) 1)) 0) 255).toNat =
    (round ((color.a : F) * min (max opacity 0) 1)).toNat
  have hcl0 : (0 : F) ≤ min (max opacity 0) 1 :=
    le_min (le_max_right _ _) zero_le_one
  have h0 : (0 : F) ≤ (color.a : F) * min (max opacity 0) 1 :=
    mul_nonneg (Nat.cast_nonneg _) hcl0
  have h255 : (color.a : F) * min (max opacity 0) 1 ≤ 255 := by
    calc (color.a : F) * min (max opacity 0) 1 ≤ 255 * 1 :=
          mul_le_mul (by exact_mod_cast h) (min_le_right _ _) hcl0 (by norm_num)
    _ = 255 := mul_one 255
  have hr0 : (0 : ℤ) ≤ round ((color.a : F) * min (max opacity 0) 1) := by
    rw [round_eq]
    apply Int.floor_nonneg.mpr
    linarith
  have hr255 : round ((color.a : F) * min (max opacity 0) 1) ≤ 255 := by
    rw [round_eq]
    have hle : (color.a : F) * min (max opacity 0) 1 + 1/2 ≤ 255 + 1/2 := by
      linarith
    calc ⌊(color.a : F) * min (max opacity 0) 1 + 1/2⌋ ≤ ⌊(255 : F) + 1/2⌋ :=
          Int.floor_mono hle
    _ = 255 := by norm_num
  rw [max_eq_left hr0, min_eq_left hr255]

/-- C5 witness: intrinsic alpha `255` with opacity `0.5` draws with
alpha exactly `128`. -/
theorem to_raylib_color_alpha_witness :
    (Color.mk 255 0 0 255).a ≤ 255 ∧
    (to_raylib_color (Color.mk 255 0 0 255) (1/2)).a = 128 := by
  refine ⟨le_rfl, ?_⟩
  rw [to_raylib_color_alpha (Color.mk 255 0 0 255) (1/2) le_rfl]
  norm_num [round_eq]
  rfl

/-- C10: the radius of a drawn circle is the shape radius times
`max(scale.x, 0)` — the `y` scale component is ignored and a
non-positive `x` scale degrades to radius `0` — while the
rectangle drawn size uses `scale.x` and `scale.y` unclamped. -/
theorem draw_shape_scaling (width height : ℕ) (radius : F) (color : Color)
    (tr : Transform) :
    ((draw_shape width height (.Circle radius color) tr).circleRadius =
      some (radius * max tr.scale.x 0)) ∧
    (∀ sy : F, (draw_shape width height (.Circle radius color)
        { tr with scale := ⟨tr.scale.x, sy⟩ }).circleRadius =
      (draw_shape width height (.Circle radius color) tr).circleRadius) ∧
    (tr.scale.x ≤ 0 →
      (draw_shape width height (.Circle radius color) tr).circleRadius =
        some 0) ∧
    (∀ w h : F, (draw_shape width height (.Rect w h color) tr).rectSize =
      some ⟨w * tr.scale.x, h * tr.scale.y⟩) := by
  refine ⟨rfl, fun sy => rfl, fun hneg => ?_, fun w h => rfl⟩
  show some (radius * max tr.scale.x 0) = some 0
  rw [max_eq_right hneg, mul_zero]

/-- C10 witness: a circle under the non-uniform scale `(-2, 3)` is drawn
with radius `0`. -/
theorem draw_shape_scaling_witness :
    ((-2 : F) ≤ 0) ∧
    (draw_shape 800 600 (.Circle 10 (Color.mk 255 0 0 255))
      ⟨⟨0, 0⟩, ⟨-2, 3⟩, 0, 1⟩).circleRadius = some 0 :=
  ⟨by norm_num,
   (draw_shape_scaling 800 600 10 (Color.mk 255 0 0 255)
     ⟨⟨0, 0⟩, ⟨-2, 3⟩, 0, 1⟩).2.2.1 (by norm_num)⟩

/-- If every frame instant of the window lies in `[0, duration)` and the
backend render always succeeds, the frame loop succeeds and performs one
sink call per remaining frame, the `j`-th at `start + (i+j)/fps`. -/
theorem renderLoop_ok (render : SampledScene → Except String Rgba)
    (tl : Timeline) (start : F) (frames : ℕ) (prog : RenderProgress)
    (clock : ℕ → F) (os : F)
    (hr : ∀ sc, ∃ r, render sc = .ok r) (fuel : ℕ) :
    ∀ (i : ℕ) (st : ProgState),
      (∀ j, j < fuel → 0 ≤ start + ((i + j : ℕ) : F) / (tl.fps : F) ∧
        start + ((i + j : ℕ) : F) / (tl.fps : F) < tl.duration) →
      ∃ out lines,
        renderLoop render tl start frames prog clock os i fuel st =
          .ok (out, lines) ∧
        out.map Prod.fst = (List.range fuel).map
          (fun j => start + ((i + j : ℕ) : F) / (tl.fps : F)) := by
  induction fuel with
  | zero =>
      intro i st _
      exact ⟨[], [], rfl, by simp⟩
  | succ fuel ih =>
      intro i st hb
      have ht0 := hb 0 (by omega)
      simp only [Nat.add_zero] at ht0
      obtain ⟨scene, hsam⟩ :
          ∃ sc, tl.sample (start + (i : F) / (tl.fps : F)) = .ok sc := by
        unfold Timeline.sample
        rw [if_neg (by push_neg; exact ht0)]
        exact ⟨_, rfl⟩
      obtain ⟨rgba, hren⟩ := hr scene
      obtain ⟨out, lines, hloop, hmap⟩ := ih (i + 1)
        (progressStep prog clock os tl.fps frames (i + 1) st).2
        (fun j hj => by
          have hjb := hb (j + 1) (by omega)
          have he : i + (j + 1) = i + 1 + j := by omega
          rw [he] at hjb
          exact hjb)
      refine ⟨(start + (i : F) / (tl.fps : F), rgba) :: out,
        (progressStep prog clock os tl.fps frames (i + 1) st).1.toList ++
          lines, ?_, ?_⟩
      · simp only [renderLoop, hsam, hren, hloop]
      · simp only [List.map_cons, hmap, List.range_succ_eq_map,
          List.map_map]
        refine congrArg₂ _ (by norm_num) ?_
        apply List.map_congr_left
        intro j _
        have he : i + 1 + j = i + Nat.succ j := by omega
        simp [Function.comp, he]

/-- C4: for a valid render window the pipeline succeeds and invokes the
sink exactly `floor((end - start) * fps)` times, the `i`-th invocation
carrying timestamp `start + i / fps`. -/
theorem pipeline_frame_times (render : SampledScene → Except String Rgba)
    (tl : Timeline) (s e : F) (progress : Option RenderProgress)
    (clock : ℕ → F) (hs : 0 ≤ s) (hse : s < e) (hed : e ≤ tl.duration)
    (hr : ∀ sc, ∃ r, render sc = .ok r) :
    ∃ out lines,
      render_timeline_rgba_with_progress render tl s e progress clock =
        .ok (out, lines) ∧
      out.length = ⌊(e - s) * (tl.fps : F)⌋.toNat ∧
      out.map Prod.fst =
        (List.range (⌊(e - s) * (tl.fps : F)⌋.toNat)).map
          (fun i : ℕ => s + (i : F) / (tl.fps : F)) := by
  have hcond : ¬(s < 0 ∨ e ≤ s ∨ tl.duration < e) := by
    push_neg
    exact ⟨hs, hse, hed⟩
  unfold render_timeline_rgba_with_progress
  rw [if_neg hcond]
  have hbound : ∀ j, j < ⌊(e - s) * (tl.fps : F)⌋.toNat →
      0 ≤ s + ((0 + j : ℕ) : F) / (tl.fps : F) ∧
      s + ((0 + j : ℕ) : F) / (tl.fps : F) < tl.duration := by
    intro j hj
    have hfpos : 0 < tl.fps := by
      by_contra hf
      have hz : tl.fps = 0 := by omega
      rw [hz] at hj
      norm_num at hj
    have hjz : (j : ℤ) < ⌊(e - s) * (tl.fps : F)⌋ := Int.lt_toNat.mp hj
    have hjq : (j : F) + 1 ≤ (e - s) * (tl.fps : F) := by
      have h1 : (j : ℤ) + 1 ≤ ⌊(e - s) * (tl.fps : F)⌋ := by omega
      have h2 := Int.le_floor.mp h1
      push_cast at h2
      exact h2
    have hfq : (0 : F) < (tl.fps : F) := by
      exact_mod_cast hfpos
    have hdiv : ((0 + j : ℕ) : F) / (tl.fps : F) < e - s := by
      rw [div_lt_iff₀ hfq]
      push_cast
      linarith
    have hdiv0 : (0 : F) ≤ ((0 + j : ℕ) : F) / (tl.fps : F) := by
      apply div_nonneg _ (le_of_lt hfq)
      positivity
    constructor
    · linarith
    · linarith
  obtain ⟨out, lines, hloop, hmap⟩ := renderLoop_ok render tl s
    (⌊(e - s) * (tl.fps : F)⌋.toNat) (progress.getD .default) clock
    (clock 1) hr (⌊(e - s) * (tl.fps : F)⌋.toNat) 0
    ⟨0, 0, clock 0, none, 2⟩ hbound
  refine ⟨out, lines, hloop, ?_, ?_⟩
  · have := congrArg List.length hmap
    simpa using this
  · simpa using hmap

/-- C4 witness: `start=0, end=2, fps=30` produces exactly `60` frames at
timestamps `0, 1/30, ..., 59/30`. -/
theorem pipeline_frame_times_witness :
    ∃ out lines,
      render_timeline_rgba_with_progress (fun _ => .ok ([] : Rgba))
        demoTimeline 0 2 none (fun _ => 0) = .ok (out, lines) ∧
      out.length = 60 ∧
      out.map Prod.fst = (List.range 60).map (fun i : ℕ => (i : F) / 30) := by
  obtain ⟨out, lines, h1, h2, h3⟩ := pipeline_frame_times
    (fun _ => .ok ([] : Rgba)) demoTimeline 0 2 none (fun _ => 0)
    le_rfl (by norm_num) (by norm_num [demoTimeline])
    (fun sc => ⟨[], rfl⟩)
  have hfr : ⌊(2 - 0 : F) * ((demoTimeline.fps : ℕ) : F)⌋.toNat = 60 := by
    norm_num [demoTimeline]
    rfl
  rw [hfr] at h2 h3
  refine ⟨out, lines, h1, h2, ?_⟩
  rw [h3]
  apply List.map_congr_left
  intro j _
  norm_num [demoTimeline]

/-- The frame part of the loop output does not depend on the progress
configuration, the wall clock, the start instant or the progress state:
only the emitted status lines do. -/
theorem renderLoop_map_fst (render : SampledScene → Except String Rgba)
    (tl : Timeline) (start : F) (frames : ℕ) (fuel : ℕ) :
    ∀ (i : ℕ) (p1 p2 : RenderProgress) (c1 c2 : ℕ → F) (o1 o2 : F)
      (s1 s2 : ProgState),
      (renderLoop render tl start frames p1 c1 o1 i fuel s1).map Prod.fst =
      (renderLoop render tl start frames p2 c2 o2 i fuel s2).map Prod.fst := by
  induction fuel with
  | zero =>
      intros
      rfl
  | succ fuel ih =>
      intro i p1 p2 c1 c2 o1 o2 s1 s2
      simp only [renderLoop]
      cases tl.sample (start + (i : F) / (tl.fps : F)) with
      | error e => rfl
      | ok scene =>
          dsimp only
          cases render scene with
          | error e => rfl
          | ok rgba =>
              dsimp only
              have h := ih (i + 1) p1 p2 c1 c2 o1 o2
                (progressStep p1 c1 o1 tl.fps frames (i + 1) s1).2
                (progressStep p2 c2 o2 tl.fps frames (i + 1) s2).2
              cases h1 : renderLoop render tl start frames p1 c1 o1 (i + 1)
                  fuel (progressStep p1 c1 o1 tl.fps frames (i + 1) s1).2 with
              | error e1 =>
                  rw [h1] at h
                  cases h2 : renderLoop render tl start frames p2 c2 o2 (i + 1)
                      fuel (progressStep p2 c2 o2 tl.fps frames (i + 1) s2).2 with
                  | error e2 =>
                      rw [h2] at h
                      simp only [Except.map] at h ⊢
                      exact h
                  | ok pr2 =>
                      rw [h2] at h
                      simp [Except.map] at h
              | ok pr1 =>
                  rw [h1] at h
                  cases h2 : renderLoop render tl start frames p2 c2 o2 (i + 1)
                      fuel (progressStep p2 c2 o2 tl.fps frames (i + 1) s2).2 with
                  | error e2 =>
                      rw [h2] at h
                      simp [Except.map] at h
                  | ok pr2 =>
                      rw [h2] at h
                      obtain ⟨rest1, lines1⟩ := pr1
                      obtain ⟨rest2, lines2⟩ := pr2
                      simp only [Except.map] at h ⊢
                      simp only [Except.ok.injEq] at h ⊢
                      rw [h]

/-- C9: with any progress configuration and any wall clock, the pipeline
delivers exactly the same `(timestamp, pixel buffer)` sequence to the
sink as the plain `render_timeline_rgba` entry point: the progress/ETA
bookkeeping never alters the rendered output. -/
theorem progress_observational (render : SampledScene → Except String Rgba)
    (tl : Timeline) (s e : F) (progress : Option RenderProgress)
    (clock clock2 : ℕ → F) :
    (render_timeline_rgba_with_progress render tl s e progress clock).map
      Prod.fst =
    (render_timeline_rgba render tl s e clock2).map Prod.fst := by
  unfold render_timeline_rgba
  by_cases hc : s < 0 ∨ e ≤ s ∨ tl.duration < e
  · simp only [render_timeline_rgba_with_progress, if_pos hc]
  · simp only [render_timeline_rgba_with_progress, if_neg hc]
    exact renderLoop_map_fst render tl s _ _ 0 _ _ clock clock2
      (clock 1) (clock2 1) _ _

end RustRender
